import Mathlib

/-!
Shallow embedding of the CORE customer-segmentation pipeline of
`CORE_Customer_Segmentation_Project.ipynb`: a single-pass pandas batch
transform that cleans a transaction table, aggregates per-customer RFM
metrics, derives quantile scores, classifies customers into CORE segments,
attaches behavioral flags and left-joins everything back onto the
transactions.

Modelling conventions: dates are day numbers (`Nat`); raw string cells are
`Nat` codes; `TransactionValue` and all monetary aggregates are `ℚ`;
a pandas `NaN` cell is `Option.none`; the date parser
(`pd.to_datetime(..., errors="coerce")`) is an explicit parameter
`parse : Nat → Option Nat`.  All functions are total, mirroring the
pipeline's absence of error paths.
-/

/-- One raw row of `UrbanMart_Transactions.csv`: the nine input columns,
each possibly missing. -/
structure RawRow where
  tid : Option Nat
  cid : Option Nat
  date : Option Nat
  value : Option ℚ
  category : Option Nat
  payment : Option Nat
  gender : Option Nat
  ageGroup : Option Nat
  region : Option Nat
deriving DecidableEq

/-- Contribution of one cell to a row's non-null count. -/
def optCount {α : Type} (o : Option α) : Nat := if o.isSome then 1 else 0

/-- Number of non-null cells of a raw row. -/
def nonNullCount (r : RawRow) : Nat :=
  optCount r.tid + optCount r.cid + optCount r.date + optCount r.value +
    optCount r.category + optCount r.payment + optCount r.gender +
    optCount r.ageGroup + optCount r.region

/-- Number of columns of the raw table (`df.shape[1]`). -/
def ncols : Nat := 9

/-- `df.dropna(thresh=df.shape[1] - 2)`: keep the rows having at least
`ncols - 2` non-null cells. -/
def dropThresh (rows : List RawRow) : List RawRow :=
  rows.filter fun r => decide (ncols - 2 ≤ nonNullCount r)

/-- Maximum of a list of naturals (`Series.max()`), `0` on the empty list. -/
def maxD (l : List Nat) : Nat := l.foldr max 0

/-- Largest multiplicity occurring in a list. -/
def multiplicityMax (l : List Nat) : Nat := maxD (l.dedup.map fun v => l.count v)

/-- pandas `Series.mode()[0]` over the non-null cells of a column: the
smallest value of maximal multiplicity (`mode()` returns the most frequent
values in ascending order and `[0]` takes the first; on an all-null column
pandas raises, which we totalize to `0`). -/
def modeVal (l : List Nat) : Nat :=
  ((l.dedup.filter fun v => decide (l.count v = multiplicityMax l)).min?).getD 0

/-- pandas `Series.mean()` over the non-null cells of a numeric column
(`0` for the empty column, where pandas yields `NaN`). -/
def meanVal (l : List ℚ) : ℚ := l.sum / (l.length : ℚ)

/-- A raw row after imputation: every cell filled. -/
structure FilledRow where
  tid : Nat
  cid : Nat
  date : Nat
  value : ℚ
  category : Nat
  payment : Nat
  gender : Nat
  ageGroup : Nat
  region : Nat
deriving DecidableEq

/-- Imputation of one row against the whole (threshold-surviving) table:
the numeric `TransactionValue` cell is filled with the column mean
(`df[numeric_cols].fillna(df[numeric_cols].mean())`), every object column
— `TransactionDate` included — with its column mode
(`df[col].fillna(df[col].mode()[0])`). -/
def fillRow (rows : List RawRow) (r : RawRow) : FilledRow where
  tid := r.tid.getD (modeVal (rows.filterMap RawRow.tid))
  cid := r.cid.getD (modeVal (rows.filterMap RawRow.cid))
  date := r.date.getD (modeVal (rows.filterMap RawRow.date))
  value := r.value.getD (meanVal (rows.filterMap RawRow.value))
  category := r.category.getD (modeVal (rows.filterMap RawRow.category))
  payment := r.payment.getD (modeVal (rows.filterMap RawRow.payment))
  gender := r.gender.getD (modeVal (rows.filterMap RawRow.gender))
  ageGroup := r.ageGroup.getD (modeVal (rows.filterMap RawRow.ageGroup))
  region := r.region.getD (modeVal (rows.filterMap RawRow.region))

/-- Mean and mode imputation over the threshold-surviving table. -/
def fillMissing (rows : List RawRow) : List FilledRow := rows.map (fillRow rows)

/-- A fully cleaned transaction row: `date` is the parsed day number. -/
structure CleanRow where
  tid : Nat
  cid : Nat
  date : Nat
  value : ℚ
  category : Nat
  payment : Nat
  gender : Nat
  ageGroup : Nat
  region : Nat
deriving DecidableEq, Inhabited

/-- Date coercion of one row: a `none` from `parse` is the `NaT` produced by
`pd.to_datetime(..., errors="coerce")`, and the subsequent
`dropna(subset=["TransactionDate"])` silently drops the row. -/
def parseRow (parse : Nat → Option Nat) (r : FilledRow) : Option CleanRow :=
  (parse r.date).map fun d =>
    { tid := r.tid, cid := r.cid, date := d, value := r.value,
      category := r.category, payment := r.payment, gender := r.gender,
      ageGroup := r.ageGroup, region := r.region }

/-- Coerce the date column and drop the rows whose date fails to parse. -/
def dropUnparseable (parse : Nat → Option Nat) (rows : List FilledRow) :
    List CleanRow :=
  rows.filterMap (parseRow parse)

/-- The whole Loader/Cleaner: threshold drop, imputation, date coercion. -/
def cleanTable (parse : Nat → Option Nat) (raw : List RawRow) : List CleanRow :=
  dropUnparseable parse (fillMissing (dropThresh raw))

/-- `snapshot_date = df["TransactionDate"].max() + timedelta(days=1)`,
computed once globally over the cleaned table. -/
def snapshot_date (rows : List CleanRow) : Nat := maxD (rows.map CleanRow.date) + 1

/-- One row of the `rfm` frame: per-customer Recency, Frequency, Monetary
and mean transaction value. -/
structure CustRFM where
  cid : Nat
  recency : ℤ
  frequency : Nat
  monetary : ℚ
  avgValue : ℚ
deriving DecidableEq, Inhabited

/-- `df.groupby("CustomerID").agg(...)`: one output row per distinct
customer id, with Recency `(snapshot_date - x.max()).days`, Frequency the
transaction count, Monetary the sum of values and the mean value. -/
def aggregate (rows : List CleanRow) : List CustRFM :=
  ((rows.map CleanRow.cid).dedup).map fun v =>
    let grp := rows.filter fun r => decide (r.cid = v)
    { cid := v
      recency := (snapshot_date rows : ℤ) - (maxD (grp.map CleanRow.date) : ℤ)
      frequency := grp.length
      monetary := (grp.map CleanRow.value).sum
      avgValue := (grp.map CleanRow.value).sum / (grp.length : ℚ) }

/-- Ascending sort of a rational column (`numpy` sorts before
interpolating a quantile). -/
def sortQ (xs : List ℚ) : List ℚ := List.insertionSort (· ≤ ·) xs

/-- pandas `Series.quantile(p)` with the default linear interpolation: on
the ascending sort `s` of the data, with `h = p * (n - 1)`, the value
`s[⌊h⌋] + (h - ⌊h⌋) * (s[⌊h⌋ + 1] - s[⌊h⌋])`, the upper index clipped to
`n - 1`.  The empty column gives `0` where pandas gives `NaN`. -/
def quantile (xs : List ℚ) (p : ℚ) : ℚ :=
  let s := sortQ xs
  let n := s.length
  let h : ℚ := p * ((n : ℚ) - 1)
  let i : ℕ := (Int.floor h).toNat
  let j : ℕ := min (i + 1) (n - 1)
  let lo : ℚ := s.getD i 0
  let hi : ℚ := s.getD j 0
  lo + (h - (i : ℚ)) * (hi - lo)

/-- The notebook's `score_rfm(value, quantiles, reverse)`: quartile banding
with `<=` at each threshold, reversed for Recency. -/
def score_rfm (value q25 q50 q75 : ℚ) (reverse : Bool) : Nat :=
  if value ≤ q25 then if reverse then 4 else 1
  else if value ≤ q50 then if reverse then 3 else 2
  else if value ≤ q75 then if reverse then 2 else 3
  else if reverse then 1 else 4

/-- `rfm["Recency"].quantile([0.25, 0.50, 0.75])`. -/
def r_quartiles (rfm : List CustRFM) : ℚ × ℚ × ℚ :=
  (quantile (rfm.map fun c => (c.recency : ℚ)) (1/4),
   quantile (rfm.map fun c => (c.recency : ℚ)) (1/2),
   quantile (rfm.map fun c => (c.recency : ℚ)) (3/4))

/-- `rfm["TransactionCount"].quantile([0.25, 0.50, 0.75])`. -/
def f_quartiles (rfm : List CustRFM) : ℚ × ℚ × ℚ :=
  (quantile (rfm.map fun c => (c.frequency : ℚ)) (1/4),
   quantile (rfm.map fun c => (c.frequency : ℚ)) (1/2),
   quantile (rfm.map fun c => (c.frequency : ℚ)) (3/4))

/-- `rfm["Monetary"].quantile([0.25, 0.50, 0.75])`. -/
def m_quartiles (rfm : List CustRFM) : ℚ × ℚ × ℚ :=
  (quantile (rfm.map CustRFM.monetary) (1/4),
   quantile (rfm.map CustRFM.monetary) (1/2),
   quantile (rfm.map CustRFM.monetary) (3/4))

/-- An `rfm` row extended with the three quantile scores. -/
structure ScoredRFM where
  cid : Nat
  recency : ℤ
  frequency : Nat
  monetary : ℚ
  avgValue : ℚ
  rScore : Nat
  fScore : Nat
  mScore : Nat
deriving DecidableEq, Inhabited

/-- The Scorer: quartile thresholds computed once over the full population,
then applied row-wise (`rfm["Recency"].apply(score_rfm, args=(r_quartiles,
True))` and the two non-reversed analogues). -/
def addScores (rfm : List CustRFM) : List ScoredRFM :=
  rfm.map fun c =>
    { cid := c.cid, recency := c.recency, frequency := c.frequency,
      monetary := c.monetary, avgValue := c.avgValue,
      rScore := score_rfm (c.recency : ℚ) (r_quartiles rfm).1
        (r_quartiles rfm).2.1 (r_quartiles rfm).2.2 true,
      fScore := score_rfm (c.frequency : ℚ) (f_quartiles rfm).1
        (f_quartiles rfm).2.1 (f_quartiles rfm).2.2 false,
      mScore := score_rfm c.monetary (m_quartiles rfm).1
        (m_quartiles rfm).2.1 (m_quartiles rfm).2.2 false }

/-- The notebook's `classify_core(r, f, m)`. -/
def classify_core (r f m : Nat) : String :=
  if 3 ≤ r ∧ 3 ≤ f ∧ 3 ≤ m then "Retain"
  else if 3 ≤ r ∧ (f = 2 ∨ m = 2) then "Optimize"
  else if r = 2 ∧ f ≤ 2 ∧ m ≤ 2 then "Convert"
  else "Exit"

/-- A scored row extended with its CORE segment. -/
structure SegRFM where
  cid : Nat
  recency : ℤ
  frequency : Nat
  monetary : ℚ
  avgValue : ℚ
  rScore : Nat
  fScore : Nat
  mScore : Nat
  segment : String
deriving DecidableEq, Inhabited

/-- The Classifier applied row-wise
(`rfm.apply(lambda row: classify_core(...), axis=1)`). -/
def addSegment (l : List ScoredRFM) : List SegRFM :=
  l.map fun c =>
    { cid := c.cid, recency := c.recency, frequency := c.frequency,
      monetary := c.monetary, avgValue := c.avgValue,
      rScore := c.rScore, fScore := c.fScore, mScore := c.mScore,
      segment := classify_core c.rScore c.fScore c.mScore }

/-- `top_spend_threshold = rfm["Monetary"].quantile(0.90)`, computed once
globally. -/
def top_spend_threshold (l : List SegRFM) : ℚ :=
  quantile (l.map SegRFM.monetary) (9/10)

/-- A segmented row extended with the three behavioral flags. -/
structure FlaggedRFM where
  cid : Nat
  recency : ℤ
  frequency : Nat
  monetary : ℚ
  avgValue : ℚ
  rScore : Nat
  fScore : Nat
  mScore : Nat
  segment : String
  churnRisk : String
  topSpender : String
  loyal : String
deriving DecidableEq, Inhabited

/-- The Flagger: `Churn_Risk = "Yes" if Recency > 90`,
`Top_Spender = "Yes" if Monetary >= top_spend_threshold`,
`IsLoyalCustomer = "Yes" if TransactionCount >= 5`. -/
def addFlags (l : List SegRFM) : List FlaggedRFM :=
  l.map fun c =>
    { cid := c.cid, recency := c.recency, frequency := c.frequency,
      monetary := c.monetary, avgValue := c.avgValue,
      rScore := c.rScore, fScore := c.fScore, mScore := c.mScore,
      segment := c.segment,
      churnRisk := if (90 : ℤ) < c.recency then "Yes" else "No",
      topSpender := if top_spend_threshold l ≤ c.monetary then "Yes" else "No",
      loyal := if 5 ≤ c.frequency then "Yes" else "No" }

/-- Scores, segment and flags attached to the `rfm` frame, in the
notebook's order. -/
def enrich (rfm : List CustRFM) : List FlaggedRFM :=
  addFlags (addSegment (addScores rfm))

/-- Number of customers flagged `Top_Spender = "Yes"`. -/
def topSpenderCount (rfm : List CustRFM) : Nat :=
  ((enrich rfm).filter fun c => decide (c.topSpender = "Yes")).length

/-- One row of the exported table: a cleaned transaction joined with its
customer's enriched RFM row (`none` models the all-`NaN` customer columns a
left join leaves on an unmatched transaction). -/
structure OutRow where
  tid : Nat
  cid : Nat
  date : Nat
  value : ℚ
  category : Nat
  payment : Nat
  gender : Nat
  ageGroup : Nat
  region : Nat
  cust : Option FlaggedRFM
deriving DecidableEq

/-- `pd.merge(df, rfm, on="CustomerID", how="left")`: every transaction row
is paired with each RFM row carrying the same customer id, and kept with
null customer columns when no RFM row matches. -/
def merge_left (df : List CleanRow) (rfm : List FlaggedRFM) : List OutRow :=
  df.flatMap fun t =>
    if (rfm.filter fun c => decide (c.cid = t.cid)).isEmpty then
      [{ tid := t.tid, cid := t.cid, date := t.date, value := t.value,
         category := t.category, payment := t.payment, gender := t.gender,
         ageGroup := t.ageGroup, region := t.region, cust := none }]
    else
      (rfm.filter fun c => decide (c.cid = t.cid)).map fun c =>
        { tid := t.tid, cid := t.cid, date := t.date, value := t.value,
          category := t.category, payment := t.payment, gender := t.gender,
          ageGroup := t.ageGroup, region := t.region, cust := some c }

/-- The full pipeline, end to end: clean, aggregate, enrich, merge
(`df_final` of the notebook). -/
def df_final (parse : Nat → Option Nat) (raw : List RawRow) : List OutRow :=
  merge_left (cleanTable parse raw) (enrich (aggregate (cleanTable parse raw)))

/-! ### General helper lemmas -/

lemma getD_zero_mem {α : Type} (l : List α) (d : α) (h : l ≠ []) :
    l.getD 0 d ∈ l := by
  cases l with
  | nil => exact absurd rfl h
  | cons a t => simp [List.getD_cons_zero]

lemma countP_decide_eq_count (v : Nat) (l : List Nat) :
    List.countP (fun x => decide (x = v)) l = l.count v := by
  unfold List.count
  refine List.countP_congr ?_
  intro a _
  by_cases h : a = v <;> simp [h]

lemma sum_map_ones {α : Type} (l : List α) (g : α → Nat)
    (h : ∀ x ∈ l, g x = 1) : (l.map g).sum = l.length := by
  induction l with
  | nil => rfl
  | cons a t ih =>
    simp only [List.map_cons, List.sum_cons, List.length_cons,
      h a (List.mem_cons_self a t)]
    rw [ih fun x hx => h x (List.mem_cons_of_mem a hx)]
    omega

/-! ### Shape of the scoring function -/

lemma score_rfm_reverse (v q25 q50 q75 : ℚ) :
    score_rfm v q25 q50 q75 true =
      if v ≤ q25 then 4 else if v ≤ q50 then 3 else if v ≤ q75 then 2 else 1 := by
  simp [score_rfm]

lemma score_rfm_forward (v q25 q50 q75 : ℚ) :
    score_rfm v q25 q50 q75 false =
      if v ≤ q25 then 1 else if v ≤ q50 then 2 else if v ≤ q75 then 3 else 4 := by
  simp [score_rfm]

lemma score_rfm_cases (v q25 q50 q75 : ℚ) (rev : Bool) :
    score_rfm v q25 q50 q75 rev = 1 ∨ score_rfm v q25 q50 q75 rev = 2 ∨
      score_rfm v q25 q50 q75 rev = 3 ∨ score_rfm v q25 q50 q75 rev = 4 := by
  unfold score_rfm
  cases rev <;> split_ifs <;> simp


/-! ### Concrete witness populations -/

/-- A one-customer population: Recency 100, Frequency 6, Monetary 50. -/
def popChurn : List CustRFM := [⟨1, 100, 6, 50, 25/3⟩]

/-- A one-customer population: Recency 10, Frequency 2, Monetary 7. -/
def popOne : List CustRFM := [⟨1, 10, 2, 7, 7/2⟩]

/-- First row of the enriched frame (`default` when the frame is empty). -/
def enrich0 (rfm : List CustRFM) : FlaggedRFM := (enrich rfm).getD 0 default

/-- First row of the scored frame (`default` when the frame is empty). -/
def addScores0 (rfm : List CustRFM) : ScoredRFM := (addScores rfm).getD 0 default

lemma enrich0_mem (rfm : List CustRFM) (h : rfm ≠ []) :
    enrich0 rfm ∈ enrich rfm := by
  refine getD_zero_mem _ _ ?_
  cases rfm with
  | nil => exact absurd rfl h
  | cons a t => simp [enrich, addFlags, addSegment, addScores]

lemma addScores0_mem (rfm : List CustRFM) (h : rfm ≠ []) :
    addScores0 rfm ∈ addScores rfm := by
  refine getD_zero_mem _ _ ?_
  cases rfm with
  | nil => exact absurd rfl h
  | cons a t => simp [addScores]

/-! ### C2 — classifier rule order -/

/-- C2: for every score triple with each component in {1,2,3,4} the
Classifier applies its rules in the stated priority order — Retain when
R≥3, F≥3, M≥3; else Optimize when R≥3 and (F=2 or M=2); else Convert when
R=2, F≤2, M≤2; else Exit — and in particular the triple (1,4,4), matched
by no rule, yields Exit. -/
theorem classify_core_rule_order (r f m : Nat)
    (hr : 1 ≤ r ∧ r ≤ 4) (hf : 1 ≤ f ∧ f ≤ 4) (hm : 1 ≤ m ∧ m ≤ 4) :
    (3 ≤ r ∧ 3 ≤ f ∧ 3 ≤ m → classify_core r f m = "Retain") ∧
    (¬(3 ≤ r ∧ 3 ≤ f ∧ 3 ≤ m) ∧ 3 ≤ r ∧ (f = 2 ∨ m = 2) →
      classify_core r f m = "Optimize") ∧
    (¬(3 ≤ r ∧ 3 ≤ f ∧ 3 ≤ m) ∧ ¬(3 ≤ r ∧ (f = 2 ∨ m = 2)) ∧
      r = 2 ∧ f ≤ 2 ∧ m ≤ 2 → classify_core r f m = "Convert") ∧
    (¬(3 ≤ r ∧ 3 ≤ f ∧ 3 ≤ m) ∧ ¬(3 ≤ r ∧ (f = 2 ∨ m = 2)) ∧
      ¬(r = 2 ∧ f ≤ 2 ∧ m ≤ 2) → classify_core r f m = "Exit") ∧
    classify_core 1 4 4 = "Exit" := by
  refine ⟨fun h1 => ?_, fun h => ?_, fun h => ?_, fun h => ?_, rfl⟩
  · unfold classify_core
    rw [if_pos h1]
  · obtain ⟨h1, h2⟩ := h
    unfold classify_core
    rw [if_neg h1, if_pos h2]
  · obtain ⟨h1, h2, h3⟩ := h
    unfold classify_core
    rw [if_neg h1, if_neg h2, if_pos h3]
  · obtain ⟨h1, h2, h3⟩ := h
    unfold classify_core
    rw [if_neg h1, if_neg h2, if_neg h3]

/-- Witness for C2 at the concrete triples (4,4,4) and (1,4,4). -/
theorem classify_core_rule_order_witness :
    classify_core 4 4 4 = "Retain" ∧ classify_core 1 4 4 = "Exit" := by
  have h := classify_core_rule_order 4 4 4 (by omega) (by omega) (by omega)
  exact ⟨h.1 (by omega), h.2.2.2.2⟩

/-! ### C7 — churn-risk flag -/

/-- C7: the Flagger sets Churn_Risk to "Yes" if and only if the customer's
Recency is strictly greater than 90. -/
theorem churn_risk_iff (rfm : List CustRFM) :
    ∀ c ∈ enrich rfm, (c.churnRisk = "Yes" ↔ (90 : ℤ) < c.recency) := by
  intro c hc
  simp only [enrich, addFlags, List.mem_map] at hc
  obtain ⟨s, hs, rfl⟩ := hc
  by_cases h : (90 : ℤ) < s.recency <;> simp [h]

/-- Witness for C7 on `popChurn` (Recency 100). -/
theorem churn_risk_iff_witness :
    (enrich0 popChurn).churnRisk = "Yes" ↔ (90 : ℤ) < (enrich0 popChurn).recency :=
  churn_risk_iff popChurn _ (enrich0_mem popChurn (by simp [popChurn]))

/-! ### C9 — scores lie in {1,2,3,4} -/

/-- C9: every scored customer's R_Score, F_Score and M_Score lie in
{1, 2, 3, 4}; the scoring function is total. -/
theorem scores_in_range (rfm : List CustRFM) :
    ∀ s ∈ addScores rfm,
      (s.rScore = 1 ∨ s.rScore = 2 ∨ s.rScore = 3 ∨ s.rScore = 4) ∧
      (s.fScore = 1 ∨ s.fScore = 2 ∨ s.fScore = 3 ∨ s.fScore = 4) ∧
      (s.mScore = 1 ∨ s.mScore = 2 ∨ s.mScore = 3 ∨ s.mScore = 4) := by
  intro s hs
  simp only [addScores, List.mem_map] at hs
  obtain ⟨c, hc, rfl⟩ := hs
  exact ⟨score_rfm_cases _ _ _ _ _, score_rfm_cases _ _ _ _ _,
    score_rfm_cases _ _ _ _ _⟩

/-- Witness for C9 on `popOne`. -/
theorem scores_in_range_witness :
    (((addScores0 popOne).rScore = 1 ∨ (addScores0 popOne).rScore = 2 ∨
      (addScores0 popOne).rScore = 3 ∨ (addScores0 popOne).rScore = 4) ∧
     ((addScores0 popOne).fScore = 1 ∨ (addScores0 popOne).fScore = 2 ∨
      (addScores0 popOne).fScore = 3 ∨ (addScores0 popOne).fScore = 4) ∧
     ((addScores0 popOne).mScore = 1 ∨ (addScores0 popOne).mScore = 2 ∨
      (addScores0 popOne).mScore = 3 ∨ (addScores0 popOne).mScore = 4)) :=
  scores_in_range popOne _ (addScores0_mem popOne (by simp [popOne]))

/-! ### Quantile helper lemmas -/

lemma sortQ_length (xs : List ℚ) : (sortQ xs).length = xs.length :=
  (List.perm_insertionSort (· ≤ ·) xs).length_eq

lemma getD_eq_of_all {l : List ℚ} {v : ℚ} (hall : ∀ x ∈ l, x = v) {k : ℕ}
    (hk : k < l.length) : l.getD k 0 = v := by
  rw [List.getD_eq_getElem _ _ hk]
  exact hall _ (List.getElem_mem hk)

/-- On a constant non-empty column every quantile collapses to the constant
value. -/
lemma quantile_const (xs : List ℚ) (v : ℚ) (hne : xs ≠ [])
    (hall : ∀ x ∈ xs, x = v) (p : ℚ) (hp0 : 0 ≤ p) (hp1 : p ≤ 1) :
    quantile xs p = v := by
  have hperm := List.perm_insertionSort (· ≤ ·) xs
  have hlen : (sortQ xs).length = xs.length := hperm.length_eq
  have hn : 0 < xs.length := List.length_pos.2 hne
  have hsall : ∀ x ∈ sortQ xs, x = v := fun x hx => hall x (hperm.mem_iff.1 hx)
  have hcast : ((xs.length : ℚ) - 1) = ((xs.length - 1 : ℕ) : ℚ) := by
    rw [Nat.cast_sub hn]
    norm_num
  have hfl : Int.floor (p * (((sortQ xs).length : ℚ) - 1)) ≤
      ((xs.length - 1 : ℕ) : ℤ) := by
    rw [hlen, hcast]
    calc Int.floor (p * ((xs.length - 1 : ℕ) : ℚ)) ≤
        Int.floor (((xs.length - 1 : ℕ) : ℚ)) :=
          Int.floor_le_floor (mul_le_of_le_one_left (Nat.cast_nonneg _) hp1)
      _ = ((xs.length - 1 : ℕ) : ℤ) := Int.floor_natCast _
  have hiLt : (Int.floor (p * (((sortQ xs).length : ℚ) - 1))).toNat <
      (sortQ xs).length := by
    omega
  have hjLt : min ((Int.floor (p * (((sortQ xs).length : ℚ) - 1))).toNat + 1)
      ((sortQ xs).length - 1) < (sortQ xs).length := by
    omega
  simp only [quantile]
  rw [getD_eq_of_all hsall hiLt, getD_eq_of_all hsall hjLt]
  ring

/-! ### C1 — quartile score bands -/

/-- C1: for every customer of the scored frame, each score compares the raw
metric against the population's 25th, 50th and 75th percentiles with `≤` at
each threshold (ties fall into the lower band): Frequency and Monetary map
to 1/2/3/4 from the lowest band up, Recency reversed to 4/3/2/1. -/
theorem scorer_quartile_bands (rfm : List CustRFM) :
    ∀ s ∈ addScores rfm,
      s.rScore = (if (s.recency : ℚ) ≤
            quantile (rfm.map fun c => (c.recency : ℚ)) (1/4) then 4
          else if (s.recency : ℚ) ≤
            quantile (rfm.map fun c => (c.recency : ℚ)) (1/2) then 3
          else if (s.recency : ℚ) ≤
            quantile (rfm.map fun c => (c.recency : ℚ)) (3/4) then 2
          else 1) ∧
      s.fScore = (if (s.frequency : ℚ) ≤
            quantile (rfm.map fun c => (c.frequency : ℚ)) (1/4) then 1
          else if (s.frequency : ℚ) ≤
            quantile (rfm.map fun c => (c.frequency : ℚ)) (1/2) then 2
          else if (s.frequency : ℚ) ≤
            quantile (rfm.map fun c => (c.frequency : ℚ)) (3/4) then 3
          else 4) ∧
      s.mScore = (if s.monetary ≤
            quantile (rfm.map CustRFM.monetary) (1/4) then 1
          else if s.monetary ≤
            quantile (rfm.map CustRFM.monetary) (1/2) then 2
          else if s.monetary ≤
            quantile (rfm.map CustRFM.monetary) (3/4) then 3
          else 4) := by
  intro s hs
  simp only [addScores, List.mem_map] at hs
  obtain ⟨c, hc, rfl⟩ := hs
  refine ⟨?_, ?_, ?_⟩ <;>
    simp only [score_rfm_reverse, score_rfm_forward, r_quartiles, f_quartiles,
      m_quartiles]

/-- Witness for C1 on `popOne`. -/
theorem scorer_quartile_bands_witness :
    (addScores0 popOne).rScore = (if ((addScores0 popOne).recency : ℚ) ≤
          quantile (popOne.map fun c => (c.recency : ℚ)) (1/4) then 4
        else if ((addScores0 popOne).recency : ℚ) ≤
          quantile (popOne.map fun c => (c.recency : ℚ)) (1/2) then 3
        else if ((addScores0 popOne).recency : ℚ) ≤
          quantile (popOne.map fun c => (c.recency : ℚ)) (3/4) then 2
        else 1) ∧
    (addScores0 popOne).fScore = (if ((addScores0 popOne).frequency : ℚ) ≤
          quantile (popOne.map fun c => (c.frequency : ℚ)) (1/4) then 1
        else if ((addScores0 popOne).frequency : ℚ) ≤
          quantile (popOne.map fun c => (c.frequency : ℚ)) (1/2) then 2
        else if ((addScores0 popOne).frequency : ℚ) ≤
          quantile (popOne.map fun c => (c.frequency : ℚ)) (3/4) then 3
        else 4) ∧
    (addScores0 popOne).mScore = (if (addScores0 popOne).monetary ≤
          quantile (popOne.map CustRFM.monetary) (1/4) then 1
        else if (addScores0 popOne).monetary ≤
          quantile (popOne.map CustRFM.monetary) (1/2) then 2
        else if (addScores0 popOne).monetary ≤
          quantile (popOne.map CustRFM.monetary) (3/4) then 3
        else 4) :=
  scorer_quartile_bands popOne _ (addScores0_mem popOne (by simp [popOne]))

/-! ### C5 — degenerate Monetary quantiles -/

/-- C5: on a non-empty population whose Monetary values are all identical
the quantiles collapse and every customer receives M_Score = 1. -/
theorem mscore_one_of_const_monetary (rfm : List CustRFM) (v : ℚ)
    (hne : rfm ≠ []) (hall : ∀ c ∈ rfm, c.monetary = v) :
    ∀ s ∈ addScores rfm, s.mScore = 1 := by
  intro s hs
  simp only [addScores, List.mem_map] at hs
  obtain ⟨c, hc, rfl⟩ := hs
  have hmv : rfm.map CustRFM.monetary ≠ [] := by
    simpa using hne
  have hallm : ∀ x ∈ rfm.map CustRFM.monetary, x = v := by
    intro x hx
    obtain ⟨c0, hc0, rfl⟩ := List.mem_map.1 hx
    exact hall c0 hc0
  have h25 : (m_quartiles rfm).1 = v :=
    quantile_const _ v hmv hallm _ (by norm_num) (by norm_num)
  have hcv : c.monetary = v := hall c hc
  simp [score_rfm, h25, hcv]

/-- A two-customer population with identical Monetary values. -/
def popConstM : List CustRFM := [⟨1, 10, 2, 5, 5/2⟩, ⟨2, 40, 3, 5, 5/3⟩]

/-- Witness for C5 on `popConstM`. -/
theorem mscore_one_of_const_monetary_witness :
    (addScores0 popConstM).mScore = 1 :=
  mscore_one_of_const_monetary popConstM 5 (by simp [popConstM])
    (by
      intro c hc
      simp only [popConstM, List.mem_cons, List.not_mem_nil, or_false] at hc
      rcases hc with rfl | rfl <;> rfl)
    _ (addScores0_mem popConstM (by simp [popConstM]))

/-! ### C6 — frequency sum round-trip -/

/-- C6: the TransactionCount values of the aggregated CustomerRFM frame sum
to the row count of the cleaned transaction table. -/
theorem frequency_sum_eq_length (rows : List CleanRow) :
    ((aggregate rows).map CustRFM.frequency).sum = rows.length := by
  have key : ∀ v, ((rows.filter fun r => decide (r.cid = v)).length)
      = (rows.map CleanRow.cid).count v := by
    intro v
    rw [← List.countP_eq_length_filter, ← countP_decide_eq_count,
      List.countP_map]
    rfl
  calc ((aggregate rows).map CustRFM.frequency).sum
      = (((rows.map CleanRow.cid).dedup).map
          fun v => (rows.map CleanRow.cid).count v).sum := by
        simp only [aggregate, List.map_map]
        congr 1
        refine List.map_congr_left fun v hv => ?_
        simpa using key v
    _ = (rows.map CleanRow.cid).length :=
        List.sum_map_count_dedup_eq_length _
    _ = rows.length := List.length_map _ _

/-! ### Maximum helper lemmas -/

lemma le_maxD {l : List Nat} {x : Nat} (hx : x ∈ l) : x ≤ maxD l := by
  induction l with
  | nil => cases hx
  | cons a t ih =>
    rcases List.mem_cons.1 hx with rfl | h
    · exact Nat.le_max_left _ _
    · exact le_trans (ih h) (Nat.le_max_right _ _)

lemma maxD_le {l : List Nat} {g : Nat} (h : ∀ x ∈ l, x ≤ g) : maxD l ≤ g := by
  induction l with
  | nil => exact Nat.zero_le g
  | cons a t ih =>
    exact max_le (h a (List.mem_cons_self a t))
      (ih fun x hx => h x (List.mem_cons_of_mem a hx))

/-! ### C10 — strictly positive Recency -/

/-- C10: on a non-empty cleaned table every aggregated customer's Recency is
at least 1, because the snapshot date is the global maximum transaction date
plus one day and each customer's last transaction date is at most that
global maximum. -/
theorem recency_pos (rows : List CleanRow) (hne : rows ≠ []) :
    ∀ c ∈ aggregate rows, 1 ≤ c.recency := by
  intro c hc
  simp only [aggregate, List.mem_map] at hc
  obtain ⟨v, hv, rfl⟩ := hc
  have hsub : maxD ((rows.filter fun r => decide (r.cid = v)).map CleanRow.date)
      ≤ maxD (rows.map CleanRow.date) := by
    apply maxD_le
    intro x hx
    apply le_maxD
    obtain ⟨r, hr, rfl⟩ := List.mem_map.1 hx
    exact List.mem_map_of_mem _ (List.mem_of_mem_filter hr)
  simp only [snapshot_date]
  omega

/-- A one-row cleaned table: customer 7, date 5, value 10. -/
def rowsOne : List CleanRow := [⟨1, 7, 5, 10, 0, 0, 0, 0, 0⟩]

/-- First row of the aggregated frame (`default` when it is empty). -/
def aggregate0 (rows : List CleanRow) : CustRFM := (aggregate rows).getD 0 default

lemma aggregate0_mem (rows : List CleanRow) (h : rows ≠ []) :
    aggregate0 rows ∈ aggregate rows := by
  refine getD_zero_mem _ _ ?_
  simp [aggregate, h]

/-- Witness for C10 on the one-row table `rowsOne`. -/
theorem recency_pos_witness : 1 ≤ (aggregate0 rowsOne).recency :=
  recency_pos rowsOne (by simp [rowsOne]) _
    (aggregate0_mem rowsOne (by simp [rowsOne]))

/-! ### C8 — merge output shape -/

lemma addScores_map_cid (rfm : List CustRFM) :
    (addScores rfm).map ScoredRFM.cid = rfm.map CustRFM.cid := by
  simp only [addScores, List.map_map]
  rfl

lemma addSegment_map_cid (l : List ScoredRFM) :
    (addSegment l).map SegRFM.cid = l.map ScoredRFM.cid := by
  simp only [addSegment, List.map_map]
  rfl

lemma addFlags_map_cid (l : List SegRFM) :
    (addFlags l).map FlaggedRFM.cid = l.map SegRFM.cid := by
  simp only [addFlags, List.map_map]
  rfl

lemma enrich_map_cid (rfm : List CustRFM) :
    (enrich rfm).map FlaggedRFM.cid = rfm.map CustRFM.cid := by
  rw [enrich, addFlags_map_cid, addSegment_map_cid, addScores_map_cid]

lemma aggregate_map_cid (rows : List CleanRow) :
    (aggregate rows).map CustRFM.cid = (rows.map CleanRow.cid).dedup := by
  simp only [aggregate, List.map_map]
  exact List.map_id _

/-- C8: the Merger emits exactly one output row per cleaned transaction row
(each transaction finds exactly one CustomerRFM row for its customer id),
and a customer id absent from the cleaned table contributes no output
rows. -/
theorem merge_one_row_per_transaction (df : List CleanRow) :
    (merge_left df (enrich (aggregate df))).length = df.length ∧
    ∀ v : Nat, (∀ t ∈ df, t.cid ≠ v) →
      ∀ o ∈ merge_left df (enrich (aggregate df)), o.cid ≠ v := by
  constructor
  · unfold merge_left
    rw [List.length_flatMap]
    refine sum_map_ones df _ ?_
    intro t ht
    simp only [Function.comp]
    have hms : ((enrich (aggregate df)).filter
        fun c => decide (c.cid = t.cid)).length = 1 := by
      rw [← List.countP_eq_length_filter]
      have hmap : List.countP (fun c => decide (c.cid = t.cid))
          (enrich (aggregate df)) = List.countP (fun x => decide (x = t.cid))
            ((enrich (aggregate df)).map FlaggedRFM.cid) := by
        rw [List.countP_map]
        rfl
      rw [hmap, enrich_map_cid, aggregate_map_cid, countP_decide_eq_count]
      exact List.count_eq_one_of_mem (List.nodup_dedup _)
        (List.mem_dedup.2 (List.mem_map_of_mem _ ht))
    have hne : ¬ ((enrich (aggregate df)).filter
        fun c => decide (c.cid = t.cid)).isEmpty = true := by
      rw [List.isEmpty_iff]
      intro h0
      rw [h0] at hms
      simp at hms
    rw [if_neg hne, List.length_map, hms]
  · intro v hv o ho
    unfold merge_left at ho
    obtain ⟨t, ht, hot⟩ := List.mem_flatMap.1 ho
    by_cases hE : ((enrich (aggregate df)).filter
        fun c => decide (c.cid = t.cid)).isEmpty = true
    · rw [if_pos hE] at hot
      simp only [List.mem_singleton] at hot
      subst hot
      simpa using hv t ht
    · rw [if_neg hE] at hot
      obtain ⟨c, hcm, rfl⟩ := List.mem_map.1 hot
      simpa using hv t ht

/-! ### C3 — handling of missing and unparseable dates -/

/-- A concrete date parser for the examples below: codes below 500 stand
for parseable date strings, larger codes for unparseable ones. -/
def parseEx (n : Nat) : Option Nat := if n < 500 then some n else none

/-- A complete raw row: customer 7, date 10. -/
def rawA : RawRow :=
  ⟨some 1, some 7, some 10, some 3, some 0, some 0, some 0, some 0, some 0⟩

/-- A complete raw row: customer 8, date 10. -/
def rawB : RawRow :=
  ⟨some 2, some 8, some 10, some 4, some 0, some 0, some 0, some 0, some 0⟩

/-- A raw row with a missing TransactionDate, complete otherwise. -/
def rawC : RawRow :=
  ⟨some 3, some 9, none, some 5, some 0, some 0, some 0, some 0, some 0⟩

/-- A raw table whose third row has a missing date. -/
def rawMissingDate : List RawRow := [rawA, rawB, rawC]

/-- C3 counterexample: row `rawC` survives the missing-fields threshold and
has a missing TransactionDate, yet it is NOT dropped — `fillna(mode)` runs
over every object column, TransactionDate included, so the missing date is
imputed with the column mode (here the date string coded 10, which parses)
and the row reaches the cleaned table (transaction id 3 is present). -/
theorem missing_date_imputed_not_dropped :
    rawC.date = none ∧ rawC ∈ dropThresh rawMissingDate ∧
      (cleanTable parseEx rawMissingDate).map CleanRow.tid = [1, 2, 3] := by
  refine ⟨rfl, by decide, ?_⟩
  decide

/-- C3 (amended): a threshold-surviving row is dropped by the Cleaner
precisely when its TransactionDate still fails to parse after the
`fillna(mode)` imputation: a missing date is first replaced by the date
column's mode, and only a row whose (possibly imputed) date is unparseable
is silently dropped — the cleaning function is total, so no error is
raised.  Stated for a row whose imputed transaction id is unique among the
survivors: no cleaned row carries its transaction id. -/
theorem unparseable_date_dropped (parse : Nat → Option Nat)
    (raw : List RawRow) (r : RawRow) (hmem : r ∈ dropThresh raw)
    (hfail : parse ((fillRow (dropThresh raw) r).date) = none)
    (huniq : ∀ q ∈ dropThresh raw,
      (fillRow (dropThresh raw) q).tid = (fillRow (dropThresh raw) r).tid →
        q = r) :
    (cleanTable parse raw).filter
      (fun c => decide (c.tid = (fillRow (dropThresh raw) r).tid)) = [] := by
  rw [List.filter_eq_nil_iff]
  intro c hc
  rw [decide_eq_true_eq]
  intro htid
  simp only [cleanTable, dropUnparseable, fillMissing] at hc
  obtain ⟨a, ha, hpa⟩ := List.mem_filterMap.1 hc
  obtain ⟨q, hq, rfl⟩ := List.mem_map.1 ha
  simp only [parseRow] at hpa
  cases hparse : parse ((fillRow (dropThresh raw) q).date) with
  | none =>
    rw [hparse] at hpa
    simp at hpa
  | some d =>
    rw [hparse] at hpa
    simp only [Option.map_some'] at hpa
    have hrec := Option.some.inj hpa
    have hctid : c.tid = (fillRow (dropThresh raw) q).tid := by
      rw [← hrec]
    have hqr : q = r := huniq q hq (by rw [← hctid, htid])
    rw [hqr] at hparse
    rw [hparse] at hfail
    cases hfail

/-- A raw row whose TransactionDate code 777 is unparseable. -/
def rawBad : RawRow :=
  ⟨some 4, some 9, some 777, some 5, some 0, some 0, some 0, some 0, some 0⟩

/-- A raw table whose third row has an unparseable date. -/
def rawWithBad : List RawRow := [rawA, rawB, rawBad]

/-- Witness for the amended C3: the row with unparseable date 777 yields no
cleaned row. -/
theorem unparseable_date_dropped_witness :
    (cleanTable parseEx rawWithBad).filter
      (fun c => decide (c.tid = (fillRow (dropThresh rawWithBad) rawBad).tid))
        = [] :=
  unparseable_date_dropped parseEx rawWithBad rawBad (by decide) (by decide)
    (by decide)

/-! ### C4 — size of the Top_Spender set -/

lemma sortQ_sorted (xs : List ℚ) : (sortQ xs).Sorted (· ≤ ·) :=
  List.sorted_insertionSort (· ≤ ·) xs

lemma sortQ_getD_mono (xs : List ℚ) {k m : ℕ} (hkm : k ≤ m)
    (hm : m < (sortQ xs).length) :
    (sortQ xs).getD k 0 ≤ (sortQ xs).getD m 0 := by
  have hk : k < (sortQ xs).length := lt_of_le_of_lt hkm hm
  rw [List.getD_eq_getElem _ _ hk, List.getD_eq_getElem _ _ hm]
  have h := @List.Sorted.rel_get_of_le ℚ (· ≤ ·) _ (sortQ xs)
    (sortQ_sorted xs) ⟨k, hk⟩ ⟨m, hm⟩ hkm
  simpa using h

lemma length_filter_map {α β : Type} (f : α → β) (p : β → Bool) (l : List α) :
    ((l.map f).filter p).length = List.countP (fun a => p (f a)) l := by
  rw [← List.countP_eq_length_filter, List.countP_map]
  rfl

/-- At least `n - ⌈p·(n-1)⌉` of the `n` data points sit at or above the
`p`-quantile: the interpolated quantile is at most the sorted value at
index `⌈p·(n-1)⌉`, and everything from that index on is at least it. -/
lemma quantile_countP_ge (xs : List ℚ) (p : ℚ) (hp0 : 0 ≤ p) (hp1 : p ≤ 1)
    (hne : xs ≠ []) :
    xs.length - (Int.ceil (p * ((xs.length : ℚ) - 1))).toNat ≤
      List.countP (fun x => decide (quantile xs p ≤ x)) xs := by
  have hperm := List.perm_insertionSort (· ≤ ·) xs
  have hlen : (sortQ xs).length = xs.length := hperm.length_eq
  have hn : 0 < xs.length := List.length_pos.2 hne
  rw [← hlen]
  have hns : 0 < (sortQ xs).length := by omega
  have hcast : (((sortQ xs).length : ℚ) - 1) =
      (((sortQ xs).length - 1 : ℕ) : ℚ) := by
    rw [Nat.cast_sub hns]
    norm_num
  have hceil_le : Int.ceil (p * (((sortQ xs).length : ℚ) - 1)) ≤
      (((sortQ xs).length - 1 : ℕ) : ℤ) := by
    rw [hcast]
    calc Int.ceil (p * (((sortQ xs).length - 1 : ℕ) : ℚ))
        ≤ Int.ceil ((((sortQ xs).length - 1 : ℕ) : ℚ)) :=
          Int.ceil_le_ceil (mul_le_of_le_one_left (Nat.cast_nonneg _) hp1)
      _ = _ := Int.ceil_natCast _
  have hceil0 : 0 ≤ Int.ceil (p * (((sortQ xs).length : ℚ) - 1)) :=
    Int.ceil_nonneg (by
      rw [hcast]
      exact mul_nonneg hp0 (Nat.cast_nonneg _))
  have hfl0 : 0 ≤ Int.floor (p * (((sortQ xs).length : ℚ) - 1)) :=
    Int.floor_nonneg.2 (by
      rw [hcast]
      exact mul_nonneg hp0 (Nat.cast_nonneg _))
  have hif : ((Int.floor (p * (((sortQ xs).length : ℚ) - 1))).toNat : ℚ) =
      ((Int.floor (p * (((sortQ xs).length : ℚ) - 1)) : ℤ) : ℚ) := by
    exact_mod_cast congrArg (fun z : ℤ => (z : ℚ)) (Int.toNat_of_nonneg hfl0)
  have hqK : quantile xs p ≤
      (sortQ xs).getD
        (Int.ceil (p * (((sortQ xs).length : ℚ) - 1))).toNat 0 := by
    have hsplit : Int.ceil (p * (((sortQ xs).length : ℚ) - 1)) =
        Int.floor (p * (((sortQ xs).length : ℚ) - 1)) ∨
        Int.ceil (p * (((sortQ xs).length : ℚ) - 1)) =
        Int.floor (p * (((sortQ xs).length : ℚ) - 1)) + 1 := by
      have h1 := Int.floor_le_ceil (p * (((sortQ xs).length : ℚ) - 1))
      have h2 := Int.ceil_le_floor_add_one (p * (((sortQ xs).length : ℚ) - 1))
      omega
    simp only [quantile]
    rcases hsplit with hc | hc
    · rw [hc]
      have hfrac : p * (((sortQ xs).length : ℚ) - 1) -
          ((Int.floor (p * (((sortQ xs).length : ℚ) - 1))).toNat : ℚ) = 0 := by
        rw [hif]
        have hle1 : p * (((sortQ xs).length : ℚ) - 1) ≤
            ((Int.floor (p * (((sortQ xs).length : ℚ) - 1)) : ℤ) : ℚ) := by
          calc p * (((sortQ xs).length : ℚ) - 1)
              ≤ ((Int.ceil (p * (((sortQ xs).length : ℚ) - 1)) : ℤ) : ℚ) :=
                Int.le_ceil _
            _ = _ := by rw [hc]
        have hge1 := Int.floor_le (p * (((sortQ xs).length : ℚ) - 1))
        linarith
      rw [hfrac]
      simp
    · have hKnat : (Int.ceil (p * (((sortQ xs).length : ℚ) - 1))).toNat =
          (Int.floor (p * (((sortQ xs).length : ℚ) - 1))).toNat + 1 := by
        omega
      have hKle : (Int.ceil (p * (((sortQ xs).length : ℚ) - 1))).toNat ≤
          (sortQ xs).length - 1 := by
        omega
      have hmin : min
          ((Int.floor (p * (((sortQ xs).length : ℚ) - 1))).toNat + 1)
          ((sortQ xs).length - 1) =
          (Int.ceil (p * (((sortQ xs).length : ℚ) - 1))).toNat := by
        omega
      rw [hmin]
      have hlo_le : (sortQ xs).getD
            (Int.floor (p * (((sortQ xs).length : ℚ) - 1))).toNat 0 ≤
          (sortQ xs).getD
            (Int.ceil (p * (((sortQ xs).length : ℚ) - 1))).toNat 0 :=
        sortQ_getD_mono xs (by omega) (by omega)
      have hfr0 : 0 ≤ p * (((sortQ xs).length : ℚ) - 1) -
          ((Int.floor (p * (((sortQ xs).length : ℚ) - 1))).toNat : ℚ) := by
        rw [hif]
        have := Int.floor_le (p * (((sortQ xs).length : ℚ) - 1))
        linarith
      have hfr1 : p * (((sortQ xs).length : ℚ) - 1) -
          ((Int.floor (p * (((sortQ xs).length : ℚ) - 1))).toNat : ℚ) ≤ 1 := by
        rw [hif]
        have := Int.lt_floor_add_one (p * (((sortQ xs).length : ℚ) - 1))
        linarith
      nlinarith [mul_nonneg (sub_nonneg.2 hfr1)
        (sub_nonneg.2 hlo_le), hfr0, hlo_le]
  have hdropall : ∀ x ∈ (sortQ xs).drop
      (Int.ceil (p * (((sortQ xs).length : ℚ) - 1))).toNat,
      (fun x => decide (quantile xs p ≤ x)) x = true := by
    intro x hx
    rw [decide_eq_true_eq]
    obtain ⟨m, hm, rfl⟩ := List.mem_iff_getElem.1 hx
    have hm2 := hm
    rw [List.length_drop] at hm2
    have hKm : (Int.ceil (p * (((sortQ xs).length : ℚ) - 1))).toNat + m <
        (sortQ xs).length := by
      omega
    have hx2 : (List.drop
        (Int.ceil (p * (((sortQ xs).length : ℚ) - 1))).toNat (sortQ xs))[m] =
        (sortQ xs).getD
          ((Int.ceil (p * (((sortQ xs).length : ℚ) - 1))).toNat + m) 0 := by
      rw [List.getElem_drop]
      exact (List.getD_eq_getElem _ _ hKm).symm
    rw [hx2]
    exact le_trans hqK (sortQ_getD_mono xs (Nat.le_add_right _ _) hKm)
  have hcount_drop : List.countP (fun x => decide (quantile xs p ≤ x))
      ((sortQ xs).drop
        (Int.ceil (p * (((sortQ xs).length : ℚ) - 1))).toNat) =
      (sortQ xs).length -
        (Int.ceil (p * (((sortQ xs).length : ℚ) - 1))).toNat := by
    rw [List.countP_eq_length.2 hdropall, List.length_drop]
  have hsplit2 : List.countP (fun x => decide (quantile xs p ≤ x)) (sortQ xs)
      = List.countP (fun x => decide (quantile xs p ≤ x))
          ((sortQ xs).take
            (Int.ceil (p * (((sortQ xs).length : ℚ) - 1))).toNat) +
        List.countP (fun x => decide (quantile xs p ≤ x))
          ((sortQ xs).drop
            (Int.ceil (p * (((sortQ xs).length : ℚ) - 1))).toNat) := by
    rw [← List.countP_append, List.take_append_drop]
  have hxs : List.countP (fun x => decide (quantile xs p ≤ x)) (sortQ xs) =
      List.countP (fun x => decide (quantile xs p ≤ x)) xs :=
    hperm.countP_eq (fun x => decide (quantile xs p ≤ x))
  omega

lemma addSegment_addScores_map_monetary (rfm : List CustRFM) :
    (addSegment (addScores rfm)).map SegRFM.monetary =
      rfm.map CustRFM.monetary := by
  simp only [addSegment, addScores, List.map_map]
  rfl

lemma top_spend_threshold_eq (rfm : List CustRFM) :
    top_spend_threshold (addSegment (addScores rfm)) =
      quantile (rfm.map CustRFM.monetary) (9/10) := by
  rw [top_spend_threshold, addSegment_addScores_map_monetary]

lemma topSpenderCount_eq_countP (rfm : List CustRFM) :
    topSpenderCount rfm = List.countP
      (fun x => decide (quantile (rfm.map CustRFM.monetary) (9/10) ≤ x))
      (rfm.map CustRFM.monetary) := by
  unfold topSpenderCount
  simp only [enrich, addFlags, length_filter_map]
  rw [top_spend_threshold_eq]
  have hfun : (fun c : SegRFM => decide
      ((if quantile (rfm.map CustRFM.monetary) (9/10) ≤ c.monetary
        then "Yes" else "No") = "Yes")) =
      (fun c : SegRFM => decide
        (quantile (rfm.map CustRFM.monetary) (9/10) ≤ c.monetary)) := by
    funext c
    by_cases h : quantile (rfm.map CustRFM.monetary) (9/10) ≤ c.monetary <;>
      simp [h]
  rw [hfun]
  have h2 := List.countP_map
    (fun x => decide (quantile (rfm.map CustRFM.monetary) (9/10) ≤ x))
    SegRFM.monetary (addSegment (addScores rfm))
  rw [addSegment_addScores_map_monetary] at h2
  exact h2.symm

/-- Arithmetic of the 90th-percentile index:
`n - ⌈0.9 (n-1)⌉ = 1 + (n-1)/10` for `n ≥ 1`. -/
lemma ceil_nine_tenths (n : ℕ) (hn : 0 < n) :
    n - (Int.ceil ((9/10 : ℚ) * ((n : ℚ) - 1))).toNat = 1 + (n - 1) / 10 := by
  obtain ⟨a, b, hb, hk⟩ : ∃ a b, b < 10 ∧ n - 1 = 10 * a + b :=
    ⟨(n - 1) / 10, (n - 1) % 10, Nat.mod_lt _ (by norm_num),
      (Nat.div_add_mod _ _).symm⟩
  have hcast : ((n : ℚ) - 1) = ((10 * a + b : ℕ) : ℚ) := by
    rw [← hk, Nat.cast_sub hn]
    norm_num
  have hbq : ((b : ℚ)) < 10 := by exact_mod_cast hb
  have hbq0 : (0 : ℚ) ≤ (b : ℚ) := Nat.cast_nonneg b
  have hceq : Int.ceil ((9/10 : ℚ) * ((n : ℚ) - 1)) = ((9 * a + b : ℕ) : ℤ) := by
    rw [hcast, Int.ceil_eq_iff]
    constructor
    · push_cast
      linarith
    · push_cast
      linarith
  rw [hceq]
  omega

/-- C4 (amended): the customers flagged Top_Spender — those with Monetary
at or above the global 90th percentile — number at least `1 + (n-1)/10`,
i.e. 10% of the population up to rounding as a lower bound; ties at the
threshold can push the count above this (see the counterexample), so only
the lower bound holds in general. -/
theorem top_spender_count_ge (rfm : List CustRFM) (hne : rfm ≠ []) :
    1 + (rfm.length - 1) / 10 ≤ topSpenderCount rfm := by
  have hne2 : rfm.map CustRFM.monetary ≠ [] := by simpa using hne
  have hcnt := quantile_countP_ge (rfm.map CustRFM.monetary) (9/10)
    (by norm_num) (by norm_num) hne2
  rw [List.length_map] at hcnt
  have harith := ceil_nine_tenths rfm.length (List.length_pos.2 hne)
  rw [topSpenderCount_eq_countP]
  omega

/-- Ten customers with identical Monetary value 5. -/
def popTen : List CustRFM :=
  [⟨1, 1, 1, 5, 5⟩, ⟨2, 2, 1, 5, 5⟩, ⟨3, 3, 1, 5, 5⟩, ⟨4, 4, 1, 5, 5⟩,
   ⟨5, 5, 1, 5, 5⟩, ⟨6, 6, 1, 5, 5⟩, ⟨7, 7, 1, 5, 5⟩, ⟨8, 8, 1, 5, 5⟩,
   ⟨9, 9, 1, 5, 5⟩, ⟨10, 10, 1, 5, 5⟩]

/-- C4 counterexample: on `popTen` — ten customers, all with Monetary 5 —
the global 90th percentile is 5 and every customer satisfies
`Monetary ≥ threshold`, so all 10 of 10 customers are flagged Top_Spender;
10% of the population up to rounding would be 1 customer, so the claimed
cardinality fails. -/
theorem top_spender_count_all_of_ties :
    topSpenderCount popTen = 10 ∧ popTen.length = 10 := by
  constructor
  · have hall : ∀ x ∈ popTen.map CustRFM.monetary, x = 5 := by
      intro x hx
      obtain ⟨c, hc, rfl⟩ := List.mem_map.1 hx
      fin_cases hc <;> rfl
    have hq : quantile (popTen.map CustRFM.monetary) (9/10) = 5 :=
      quantile_const _ 5 (by simp [popTen]) hall _ (by norm_num) (by norm_num)
    have hall2 : ∀ x ∈ popTen.map CustRFM.monetary,
        (fun x => decide ((5 : ℚ) ≤ x)) x = true := by
      intro x hx
      rw [hall x hx]
      norm_num
    rw [topSpenderCount_eq_countP, hq, List.countP_eq_length.2 hall2]
    simp [popTen]
  · rfl

/-- Witness for the amended C4 on `popTen`. -/
theorem top_spender_count_ge_witness :
    1 + (popTen.length - 1) / 10 ≤ topSpenderCount popTen :=
  top_spender_count_ge popTen (by simp [popTen])
